import Mathlib

/-!
Verification of the rekall interval-algebra engine used by
`src/examples/cxck.py`.  The repository ships only the example script; the
library it calls (`Bounds3D`, `Interval`, `IntervalSet`,
`IntervalSetMapping`) is not under `src/`, so those operations are modelled
here from the specification (each such definition says so in its doc
comment).  Scalar coordinates are modelled by rationals.
-/

namespace Rekall

/-- Modelled from the spec: the `Bounds3D` record of the rekall library
(missing from `src/`): six scalar coordinates `(t1, t2, x1, x2, y1, y2)`,
a time range plus a 2D spatial rectangle. -/
structure Bounds3D where
  t1 : ℚ
  t2 : ℚ
  x1 : ℚ
  x2 : ℚ
  y1 : ℚ
  y2 : ℚ
deriving DecidableEq, Repr

/-- Modelled from the spec: `span(other)` of the rekall library (missing
from `src/`): axis-wise union, taking the min of the lower and the max of
the upper coordinate on each of the three axes. -/
def Bounds3D.span (a b : Bounds3D) : Bounds3D :=
  { t1 := min a.t1 b.t1
    t2 := max a.t2 b.t2
    x1 := min a.x1 b.x1
    x2 := max a.x2 b.x2
    y1 := min a.y1 b.y1
    y2 := max a.y2 b.y2 }

/-- Error raised when a `Bounds3D` is constructed with malformed coordinate
ordering. -/
inductive BoundsError where
  | invalidBounds : BoundsError
deriving DecidableEq, Repr

/-- Modelled from the spec: validating construction of a `Bounds3D` (the
rekall constructor is missing from `src/`): coordinates violating the
ordering invariant are rejected with `InvalidBoundsError`; zero-length
ranges are permitted. -/
def Bounds3D.make (t1 t2 x1 x2 y1 y2 : ℚ) : Except BoundsError Bounds3D :=
  if t1 ≤ t2 ∧ x1 ≤ x2 ∧ y1 ≤ y2 then
    .ok { t1 := t1, t2 := t2, x1 := x1, x2 := x2, y1 := y1, y2 := y2 }
  else
    .error .invalidBounds

/-- The ordering invariant every successfully constructed `Bounds3D`
satisfies. -/
def Bounds3D.wellFormed (b : Bounds3D) : Prop :=
  b.t1 ≤ b.t2 ∧ b.x1 ≤ b.x2 ∧ b.y1 ≤ b.y2

instance (b : Bounds3D) : Decidable b.wellFormed := by
  unfold Bounds3D.wellFormed; infer_instance

/-- Modelled from the spec: the `Interval` record of the rekall library
(missing from `src/`): a `Bounds3D` paired with an arbitrary payload. -/
structure Interval (P : Type) where
  bounds : Bounds3D
  payload : P
deriving DecidableEq, Repr

/-- The value returned by mapping-style subscript access on an `Interval`:
either the bounds or the payload. -/
inductive Interval.Field (P : Type) where
  | boundsField (b : Bounds3D)
  | payloadField (p : P)
deriving DecidableEq, Repr

/-- Modelled from the spec: subscript access on `Interval` (the rekall
implementation is missing from `src/`); the example script reads
`interval['bounds']` and `interval['payload']` at the call sites of
`merge_op`, so the string keys "bounds" and "payload" retrieve the two
fields and any other key misses. -/
def Interval.getItem {P : Type} (i : Interval P) (key : String) :
    Option (Interval.Field P) :=
  if key = "bounds" then some (.boundsField i.bounds)
  else if key = "payload" then some (.payloadField i.payload)
  else none

/-- Modelled from the spec: an `IntervalSet` of the rekall library (missing
from `src/`): an ordered sequence of intervals, duplicates permitted. -/
abbrev IntervalSet (P : Type) := List (Interval P)

/-- Modelled from the spec: `IntervalSet.filter` keeps the intervals
satisfying the predicate, preserving relative order; pure, no mutation of
the source. -/
def IntervalSet.filter {P : Type} (s : IntervalSet P)
    (p : Interval P → Bool) : IntervalSet P :=
  List.filter p s

/-- The temporal window condition of the join, modelled from the spec: the
start-time gap `|a.t1 - b.t1|` is at most the window; an absent window is
unbounded and always holds. -/
def inWindow {P Q : Type} (w : Option ℚ) (a : Interval P) (b : Interval Q) :
    Bool :=
  match w with
  | none => true
  | some w => decide (|a.bounds.t1 - b.bounds.t1| ≤ w)

/-- Modelled from the spec: the naive reference join: the full cross
product of A and B filtered by the predicate and the window condition, each
surviving pair merged by `merge_op`, grouped by `a` in A's order and within
each group by `b` in B's order. -/
def joinNaive {P Q R : Type} (A : IntervalSet P) (B : IntervalSet Q)
    (pred : Interval P → Interval Q → Bool)
    (mergeOp : Interval P → Interval Q → Interval R)
    (w : Option ℚ) : IntervalSet R :=
  A.flatMap fun a =>
    (List.filter (fun b => pred a b && inWindow w a b) B).map (mergeOp a)

/-- Modelled from the spec: the contiguous slice of a t1-sorted list B of
intervals whose start times fall within `[t - w, t + w]`, located by
dropping the too-early prefix and then taking while below the upper
limit. -/
def windowSlice {Q : Type} (w t : ℚ) (B : IntervalSet Q) : IntervalSet Q :=
  (B.dropWhile fun b => decide (b.bounds.t1 < t - w)).takeWhile
    fun b => decide (b.bounds.t1 ≤ t + w)

/-- Modelled from the spec: the sorted-sweep windowed join: sweep A in
order and, for each `a`, evaluate the predicate only on B's window slice
around `a.t1`, merging the matches in B's order. -/
def joinSweep {P Q R : Type} (A : IntervalSet P) (B : IntervalSet Q)
    (pred : Interval P → Interval Q → Bool)
    (mergeOp : Interval P → Interval Q → Interval R)
    (w : ℚ) : IntervalSet R :=
  A.flatMap fun a =>
    (List.filter (pred a) (windowSlice w a.bounds.t1 B)).map (mergeOp a)

/-- Modelled from the spec: `IntervalSet.join`: with a bounded window it
runs the sorted-sweep algorithm; with an unbounded window it falls back to
the full cross product filtered by the predicate. -/
def IntervalSet.join {P Q R : Type} (A : IntervalSet P) (B : IntervalSet Q)
    (pred : Interval P → Interval Q → Bool)
    (mergeOp : Interval P → Interval Q → Interval R)
    (w : Option ℚ) : IntervalSet R :=
  match w with
  | some w => joinSweep A B pred mergeOp w
  | none => A.flatMap fun a => (List.filter (pred a) B).map (mergeOp a)

/-- A list of intervals in nondecreasing order of start time `t1`; the
spec's join sorts both inputs by `t1` before sweeping, and IntervalSets are
maintained in this order. -/
abbrev SortedByT1 {P : Type} (l : IntervalSet P) : Prop :=
  l.Pairwise fun a b => a.bounds.t1 ≤ b.bounds.t1

/-- A concrete interval with start time `t` and payload `p`, used by the
witnesses below. -/
def sampleInterval (t : ℚ) (p : ℕ) : Interval ℕ :=
  { bounds := { t1 := t, t2 := t + 1, x1 := 0, x2 := 1, y1 := 0, y2 := 1 }
    payload := p }

/-- A concrete left operand for join witnesses. -/
def sampleA : IntervalSet ℕ :=
  [sampleInterval 0 1, sampleInterval 1 2, sampleInterval 2 3]

/-- A concrete t1-sorted right operand for join witnesses. -/
def sampleB : IntervalSet ℕ :=
  [sampleInterval 0 10, sampleInterval 1 20]

/-- A concrete join predicate (temporal start equality) for witnesses. -/
def samplePred : Interval ℕ → Interval ℕ → Bool :=
  fun a b => decide (a.bounds.t1 = b.bounds.t1)

/-- A concrete merge operation (span of bounds, sum of payloads) for
witnesses. -/
def sampleMerge : Interval ℕ → Interval ℕ → Interval ℕ :=
  fun a b =>
    { bounds := a.bounds.span b.bounds, payload := a.payload + b.payload }

/-- Modelled from the spec: an `IntervalSetMapping` of the rekall library
(missing from `src/`): a mapping from partition keys to IntervalSets,
modelled as an association list; its invariant is that each key maps to
exactly one IntervalSet. -/
abbrev IntervalSetMapping (K P : Type) := List (K × IntervalSet P)

/-- The keys of a mapping, in order. -/
def IntervalSetMapping.keys {K P : Type} (m : IntervalSetMapping K P) :
    List K :=
  m.map Prod.fst

/-- Lookup of the IntervalSet stored under a key (first occurrence). -/
def IntervalSetMapping.get? {K P : Type} [DecidableEq K]
    (m : IntervalSetMapping K P) (k : K) : Option (IntervalSet P) :=
  match m with
  | [] => none
  | (k', s) :: rest =>
    if k = k' then some s else IntervalSetMapping.get? rest k

/-- Modelled from the spec: `IntervalSetMapping.join`: for each key of self
that also appears in other, join the two IntervalSets stored under that
key; keys present in only one mapping are dropped, not an error. -/
def IntervalSetMapping.join {K P Q R : Type} [DecidableEq K]
    (m1 : IntervalSetMapping K P) (m2 : IntervalSetMapping K Q)
    (pred : Interval P → Interval Q → Bool)
    (mergeOp : Interval P → Interval Q → Interval R)
    (w : Option ℚ) : IntervalSetMapping K R :=
  m1.filterMap fun kv =>
    match IntervalSetMapping.get? m2 kv.1 with
    | some s2 => some (kv.1, IntervalSet.join kv.2 s2 pred mergeOp w)
    | none => none

/-- Error wrapping the underlying cause when a predicate or merge callback
fails during a join. -/
inductive EvalError (ε : Type) where
  | evaluationError (cause : ε)
deriving DecidableEq, Repr

/-- Modelled from the spec: one row of the fallible sweep join: the window
candidates of one left interval, scanned in order; the predicate is
evaluated on each candidate and the matches are merged; the first callback
failure aborts the row with an `EvaluationError` wrapping the cause. -/
def joinRowE {P Q R ε : Type}
    (pred : Interval P → Interval Q → Except ε Bool)
    (mergeOp : Interval P → Interval Q → Except ε (Interval R))
    (a : Interval P) :
    List (Interval Q) → Except (EvalError ε) (List (Interval R))
  | [] => .ok []
  | b :: bs =>
    match pred a b with
    | .error e => .error (.evaluationError e)
    | .ok false => joinRowE pred mergeOp a bs
    | .ok true =>
      match mergeOp a b with
      | .error e => .error (.evaluationError e)
      | .ok r =>
        match joinRowE pred mergeOp a bs with
        | .error e => .error e
        | .ok rs => .ok (r :: rs)

/-- Modelled from the spec: the fallible windowed join: the rows are swept
in A's order; the first callback failure aborts the whole join, which then
carries only the error and never a partial result. -/
def joinE {P Q R ε : Type} (A : IntervalSet P) (B : IntervalSet Q)
    (pred : Interval P → Interval Q → Except ε Bool)
    (mergeOp : Interval P → Interval Q → Except ε (Interval R))
    (w : ℚ) : Except (EvalError ε) (IntervalSet R) :=
  match A with
  | [] => .ok []
  | a :: rest =>
    match joinRowE pred mergeOp a (windowSlice w a.bounds.t1 B) with
    | .error e => .error e
    | .ok rs =>
      match joinE rest B pred mergeOp w with
      | .error e => .error e
      | .ok out => .ok (rs ++ out)

/-- A candidate pair on which one of the join callbacks fails: the
predicate itself fails, or the predicate holds and the merge fails. -/
def failsOn {P Q R ε : Type}
    (pred : Interval P → Interval Q → Except ε Bool)
    (mergeOp : Interval P → Interval Q → Except ε (Interval R))
    (a : Interval P) (b : Interval Q) : Prop :=
  (∃ e, pred a b = .error e) ∨
    (pred a b = .ok true ∧ ∃ e, mergeOp a b = .error e)

/-- A concrete always-failing predicate callback for the C8 witness. -/
def samplePredE : Interval ℕ → Interval ℕ → Except ℕ Bool :=
  fun _ _ => .error 7

/-- A concrete total merge callback for the C8 witness. -/
def sampleMergeE : Interval ℕ → Interval ℕ → Except ℕ (Interval ℕ) :=
  fun a b => .ok (sampleMerge a b)

/-- On a t1-sorted list, dropping the prefix of intervals starting before
`c` is the same as filtering for start time at least `c`. -/
theorem dropWhile_lt_eq_filter {Q : Type} (c : ℚ) (B : IntervalSet Q)
    (hB : SortedByT1 B) :
    (B.dropWhile fun b => decide (b.bounds.t1 < c)) =
      List.filter (fun b => decide (c ≤ b.bounds.t1)) B := by
  induction B with
  | nil => rfl
  | cons b bs ih =>
    simp only [SortedByT1, List.pairwise_cons] at hB
    by_cases h : b.bounds.t1 < c
    · rw [List.dropWhile_cons_of_pos (by simpa using h), ih hB.2,
        List.filter_cons_of_neg (by simpa using h)]
    · rw [List.dropWhile_cons_of_neg (by simpa using h),
        List.filter_cons_of_pos (by simpa using not_lt.mp h)]
      congr 1
      symm
      rw [List.filter_eq_self]
      intro x hx
      simpa using le_trans (not_lt.mp h) (hB.1 x hx)

/-- On a t1-sorted list, taking the prefix of intervals starting at or
before `c` is the same as filtering for start time at most `c`. -/
theorem takeWhile_le_eq_filter {Q : Type} (c : ℚ) (B : IntervalSet Q)
    (hB : SortedByT1 B) :
    (B.takeWhile fun b => decide (b.bounds.t1 ≤ c)) =
      List.filter (fun b => decide (b.bounds.t1 ≤ c)) B := by
  induction B with
  | nil => rfl
  | cons b bs ih =>
    simp only [SortedByT1, List.pairwise_cons] at hB
    by_cases h : b.bounds.t1 ≤ c
    · rw [List.takeWhile_cons_of_pos (by simpa using h),
        List.filter_cons_of_pos (by simpa using h), ih hB.2]
    · rw [List.takeWhile_cons_of_neg (by simpa using h),
        List.filter_cons_of_neg (by simpa using h)]
      symm
      rw [List.filter_eq_nil_iff]
      intro x hx
      simp only [decide_eq_true_eq]
      intro hc
      exact h (le_trans (hB.1 x hx) hc)

/-- On a t1-sorted list the window slice is exactly the filter by the
window condition. -/
theorem windowSlice_eq_filter {Q : Type} (w t : ℚ) (B : IntervalSet Q)
    (hB : SortedByT1 B) :
    windowSlice w t B =
      List.filter (fun b => decide (|t - b.bounds.t1| ≤ w)) B := by
  unfold windowSlice
  rw [dropWhile_lt_eq_filter _ _ hB,
    takeWhile_le_eq_filter _ _ (List.Pairwise.sublist (List.filter_sublist _) hB),
    List.filter_filter]
  apply List.filter_congr
  intro b _
  have : |t - b.bounds.t1| ≤ w ↔
      t - w ≤ b.bounds.t1 ∧ b.bounds.t1 ≤ t + w := by
    rw [abs_le]
    constructor <;> intro h <;> constructor <;> linarith [h.1, h.2]
  simp [this, Bool.and_comm]

/-- The windowed sweep join coincides with the naive reference join on a
t1-sorted right operand; the unbounded fallback coincides as well. -/
theorem join_eq_joinNaive {P Q R : Type} (A : IntervalSet P)
    (B : IntervalSet Q) (pred : Interval P → Interval Q → Bool)
    (mergeOp : Interval P → Interval Q → Interval R) (w : Option ℚ)
    (hB : SortedByT1 B) :
    IntervalSet.join A B pred mergeOp w = joinNaive A B pred mergeOp w := by
  cases w with
  | none =>
    simp [IntervalSet.join, joinNaive, inWindow]
  | some w =>
    simp only [IntervalSet.join, joinSweep, joinNaive]
    apply congrArg (List.flatMap A)
    funext a
    rw [windowSlice_eq_filter w a.bounds.t1 B hB, List.filter_filter]
    apply congrArg (List.map (mergeOp a))
    apply List.filter_congr
    intro b _
    cases hp : pred a b <;> simp [inWindow, hp]

/-- The naive join enumerated over explicit pairs: the cross product in
lexicographic order, filtered by the match condition, each surviving pair
merged once. -/
theorem joinNaive_eq_product_map {P Q R : Type} (A : IntervalSet P)
    (B : IntervalSet Q) (pred : Interval P → Interval Q → Bool)
    (mergeOp : Interval P → Interval Q → Interval R) (w : Option ℚ) :
    joinNaive A B pred mergeOp w =
      ((A ×ˢ B).filter fun ab => pred ab.1 ab.2 && inWindow w ab.1 ab.2).map
        fun ab => mergeOp ab.1 ab.2 := by
  induction A with
  | nil => rfl
  | cons a A ih =>
    simp only [joinNaive, List.flatMap_cons, List.product_cons,
      List.filter_append, List.map_append] at *
    rw [ih]
    congr 1
    rw [List.filter_map, List.map_map]
    rfl

/-- Narrowing the window to `w` turns the naive join into a sublist of the
unbounded naive join. -/
theorem joinNaive_window_sublist {P Q R : Type} (A : IntervalSet P)
    (B : IntervalSet Q) (pred : Interval P → Interval Q → Bool)
    (mergeOp : Interval P → Interval Q → Interval R) (w : ℚ) :
    (joinNaive A B pred mergeOp (some w)).Sublist
      (joinNaive A B pred mergeOp none) := by
  induction A with
  | nil => simp [joinNaive]
  | cons a A ih =>
    simp only [joinNaive, List.flatMap_cons] at *
    refine List.Sublist.append ?_ ih
    apply List.Sublist.map
    apply List.monotone_filter_right
    intro b hb
    simp only [Bool.and_eq_true] at hb ⊢
    exact ⟨hb.1, rfl⟩

/-- Claim C1: for every pair of interval sets, predicate, merge operation
and window (bounded or unbounded), the windowed sorted-sweep join returns
exactly the same sequence of intervals, in the same order, as the naive
full-cross-product reference join, provided the right operand is in the
t1-sorted order every IntervalSet maintains. -/
theorem IntervalSet.join_refines_naive {P Q R : Type} (A : IntervalSet P)
    (B : IntervalSet Q) (pred : Interval P → Interval Q → Bool)
    (mergeOp : Interval P → Interval Q → Interval R) (w : Option ℚ)
    (hB : SortedByT1 B) :
    IntervalSet.join A B pred mergeOp w = joinNaive A B pred mergeOp w :=
  join_eq_joinNaive A B pred mergeOp w hB

/-- Claim C2: the join produces, for every pair (a, b) satisfying the
predicate and the window condition, exactly one output interval
`merge_op(a, b)` and no others — the output is the filtered cross product
of pairs, each merged once — and with an always-true predicate and
unbounded window it equals the full cross-product merge of A and B. -/
theorem IntervalSet.join_matches_spec {P Q R : Type} (A : IntervalSet P)
    (B : IntervalSet Q) (pred : Interval P → Interval Q → Bool)
    (mergeOp : Interval P → Interval Q → Interval R) (w : Option ℚ)
    (hB : SortedByT1 B) :
    IntervalSet.join A B pred mergeOp w =
      ((A ×ˢ B).filter fun ab => pred ab.1 ab.2 && inWindow w ab.1 ab.2).map
        (fun ab => mergeOp ab.1 ab.2) ∧
    IntervalSet.join A B (fun _ _ => true) mergeOp none =
      A.flatMap fun a => B.map (mergeOp a) := by
  constructor
  · rw [join_eq_joinNaive A B pred mergeOp w hB, joinNaive_eq_product_map]
  · simp [IntervalSet.join]

/-- Claim C3: the join output is grouped by `a` in A's order and, within
each group, follows the matching `b` in B's order; every matching pair
contributes its own separate output interval, so the output length is the
number of matching pairs (the join is never reduced to at most one match
per `a`). -/
theorem IntervalSet.join_order_spec {P Q R : Type} (A : IntervalSet P)
    (B : IntervalSet Q) (pred : Interval P → Interval Q → Bool)
    (mergeOp : Interval P → Interval Q → Interval R) (w : Option ℚ)
    (hB : SortedByT1 B) :
    IntervalSet.join A B pred mergeOp w =
      (A.flatMap fun a =>
        (List.filter (fun b => pred a b && inWindow w a b) B).map
          (mergeOp a)) ∧
    (IntervalSet.join A B pred mergeOp w).length =
      ((A ×ˢ B).filter fun ab =>
        pred ab.1 ab.2 && inWindow w ab.1 ab.2).length := by
  have h1 := join_eq_joinNaive A B pred mergeOp w hB
  refine ⟨h1, ?_⟩
  rw [h1, joinNaive_eq_product_map, List.length_map]

/-- Claim C4: for every bounded window `w`, the join returns at most as
many intervals as the join with an unbounded window: narrowing the window
can only drop matches, never add them. -/
theorem IntervalSet.join_window_mono {P Q R : Type} (A : IntervalSet P)
    (B : IntervalSet Q) (pred : Interval P → Interval Q → Bool)
    (mergeOp : Interval P → Interval Q → Interval R) (w : ℚ)
    (hB : SortedByT1 B) :
    (IntervalSet.join A B pred mergeOp (some w)).length ≤
      (IntervalSet.join A B pred mergeOp none).length := by
  rw [join_eq_joinNaive A B pred mergeOp (some w) hB,
    join_eq_joinNaive A B pred mergeOp none hB]
  exact (joinNaive_window_sublist A B pred mergeOp w).length_le

/-- Claim C6: `IntervalSet.filter` is idempotent: filtering twice with the
same predicate equals filtering once; the result is a subsequence of the
source (original relative order preserved) containing exactly the intervals
satisfying the predicate; the source value is unchanged, the model being
pure. -/
theorem IntervalSet.filter_idempotent {P : Type} (s : IntervalSet P)
    (p : Interval P → Bool) :
    IntervalSet.filter (IntervalSet.filter s p) p = IntervalSet.filter s p ∧
    (IntervalSet.filter s p).Sublist s ∧
    ∀ i, i ∈ IntervalSet.filter s p ↔ i ∈ s ∧ p i = true := by
  refine ⟨?_, List.filter_sublist s, fun i => List.mem_filter⟩
  simp [IntervalSet.filter, List.filter_filter]

/-- Witness for C1: at concrete sorted inputs the sweep join equals the
naive join. -/
theorem IntervalSet.join_refines_naive_witness :
    SortedByT1 sampleB ∧
    IntervalSet.join sampleA sampleB samplePred sampleMerge (some 0) =
      joinNaive sampleA sampleB samplePred sampleMerge (some 0) :=
  ⟨by decide,
    IntervalSet.join_refines_naive sampleA sampleB samplePred sampleMerge
      (some 0) (by decide)⟩

/-- Witness for C2 at concrete inputs. -/
theorem IntervalSet.join_matches_spec_witness :
    SortedByT1 sampleB ∧
    (IntervalSet.join sampleA sampleB samplePred sampleMerge (some 1) =
      ((sampleA ×ˢ sampleB).filter fun ab =>
        samplePred ab.1 ab.2 && inWindow (some 1) ab.1 ab.2).map
        (fun ab => sampleMerge ab.1 ab.2) ∧
    IntervalSet.join sampleA sampleB (fun _ _ => true) sampleMerge none =
      sampleA.flatMap fun a => sampleB.map (sampleMerge a)) :=
  ⟨by decide,
    IntervalSet.join_matches_spec sampleA sampleB samplePred sampleMerge
      (some 1) (by decide)⟩

/-- Witness for C3 at concrete inputs. -/
theorem IntervalSet.join_order_spec_witness :
    SortedByT1 sampleB ∧
    (IntervalSet.join sampleA sampleB samplePred sampleMerge (some 0) =
      (sampleA.flatMap fun a =>
        (List.filter (fun b => samplePred a b && inWindow (some 0) a b)
          sampleB).map (sampleMerge a)) ∧
    (IntervalSet.join sampleA sampleB samplePred sampleMerge (some 0)).length =
      ((sampleA ×ˢ sampleB).filter fun ab =>
        samplePred ab.1 ab.2 && inWindow (some 0) ab.1 ab.2).length) :=
  ⟨by decide,
    IntervalSet.join_order_spec sampleA sampleB samplePred sampleMerge
      (some 0) (by decide)⟩

/-- Witness for C4 at concrete inputs. -/
theorem IntervalSet.join_window_mono_witness :
    SortedByT1 sampleB ∧
    (IntervalSet.join sampleA sampleB samplePred sampleMerge (some 1)).length ≤
      (IntervalSet.join sampleA sampleB samplePred sampleMerge none).length :=
  ⟨by decide,
    IntervalSet.join_window_mono sampleA sampleB samplePred sampleMerge 1
      (by decide)⟩

/-- Claim C5: `Bounds3D.span` is commutative and associative, and it is the
axis-wise union taking the min of the lower coordinates and the max of the
upper coordinates on each of the three axes. -/
theorem Bounds3D.span_comm_assoc (a b c : Bounds3D) :
    a.span b = b.span a ∧
    (a.span b).span c = a.span (b.span c) ∧
    (a.span b).t1 = min a.t1 b.t1 ∧ (a.span b).t2 = max a.t2 b.t2 ∧
    (a.span b).x1 = min a.x1 b.x1 ∧ (a.span b).x2 = max a.x2 b.x2 ∧
    (a.span b).y1 = min a.y1 b.y1 ∧ (a.span b).y2 = max a.y2 b.y2 := by
  refine ⟨?_, ?_, rfl, rfl, rfl, rfl, rfl, rfl⟩
  · simp [Bounds3D.span, min_comm, max_comm]
  · simp [Bounds3D.span, min_assoc, max_assoc]

/-- Claim C9: constructing a `Bounds3D` with coordinates violating the
ordering invariant fails with `InvalidBoundsError`, and every successfully
constructed `Bounds3D` carries exactly the given coordinates and satisfies
`t1 ≤ t2`, `x1 ≤ x2`, `y1 ≤ y2` (zero-length ranges permitted).
Immutability is inherent in this pure model: no operation mutates a
constructed value. -/
theorem Bounds3D.make_spec (t1 t2 x1 x2 y1 y2 : ℚ) :
    (¬(t1 ≤ t2 ∧ x1 ≤ x2 ∧ y1 ≤ y2) →
      Bounds3D.make t1 t2 x1 x2 y1 y2 = .error .invalidBounds) ∧
    (∀ b, Bounds3D.make t1 t2 x1 x2 y1 y2 = .ok b →
      b = { t1 := t1, t2 := t2, x1 := x1, x2 := x2, y1 := y1, y2 := y2 } ∧
      b.wellFormed) := by
  constructor
  · intro h
    simp [Bounds3D.make, h]
  · intro b hb
    unfold Bounds3D.make at hb
    split at hb
    · rename_i h
      cases hb
      exact ⟨rfl, h⟩
    · cases hb

/-- Witness for C9: a violating construction is rejected and a valid one
round-trips, at concrete inputs. -/
theorem Bounds3D.make_spec_witness :
    Bounds3D.make 1 0 0 0 0 0 = .error .invalidBounds ∧
    ({ t1 := 0, t2 := 1, x1 := 0, x2 := 1, y1 := 0, y2 := 1 } : Bounds3D)
      = { t1 := 0, t2 := 1, x1 := 0, x2 := 1, y1 := 0, y2 := 1 } ∧
    ({ t1 := 0, t2 := 1, x1 := 0, x2 := 1, y1 := 0, y2 := 1 } : Bounds3D).wellFormed := by
  refine ⟨(Bounds3D.make_spec 1 0 0 0 0 0).1 (by norm_num), ?_⟩
  exact (Bounds3D.make_spec 0 1 0 1 0 1).2 _ (by simp [Bounds3D.make])

/-- Claim C10: constructing an `Interval` from bounds `b` and payload `p`
and then reading it back through the subscript keys "bounds" and "payload"
is a round trip: the keys yield exactly `b` and `p`. -/
theorem Interval.getItem_round_trip {P : Type} (b : Bounds3D) (p : P) :
    (Interval.mk b p).getItem "bounds" = some (.boundsField b) ∧
    (Interval.mk b p).getItem "payload" = some (.payloadField p) := by
  constructor <;> rfl

/-- Lookup misses exactly the keys outside the mapping. -/
theorem IntervalSetMapping.get?_eq_none_iff {K P : Type} [DecidableEq K]
    (m : IntervalSetMapping K P) (k : K) :
    IntervalSetMapping.get? m k = none ↔
      k ∉ IntervalSetMapping.keys m := by
  induction m with
  | nil => simp [IntervalSetMapping.get?, IntervalSetMapping.keys]
  | cons kv rest ih =>
    obtain ⟨k', s⟩ := kv
    by_cases hk : k = k'
    · subst hk
      simp [IntervalSetMapping.get?, IntervalSetMapping.keys]
    · simp [IntervalSetMapping.get?, IntervalSetMapping.keys, hk, ih,
        IntervalSetMapping.keys] at *

/-- The key list of a mapping join is the key list of the left operand
filtered by membership in the right operand's key list. -/
theorem IntervalSetMapping.keys_join {K P Q R : Type} [DecidableEq K]
    (m1 : IntervalSetMapping K P) (m2 : IntervalSetMapping K Q)
    (pred : Interval P → Interval Q → Bool)
    (mergeOp : Interval P → Interval Q → Interval R) (w : Option ℚ) :
    IntervalSetMapping.keys (IntervalSetMapping.join m1 m2 pred mergeOp w) =
      (IntervalSetMapping.keys m1).filter
        (fun k => decide (k ∈ IntervalSetMapping.keys m2)) := by
  induction m1 with
  | nil => rfl
  | cons kv rest ih =>
    obtain ⟨k1, s1⟩ := kv
    by_cases h2 : IntervalSetMapping.get? m2 k1 = none
    · have hmem : k1 ∉ IntervalSetMapping.keys m2 :=
        (IntervalSetMapping.get?_eq_none_iff m2 k1).mp h2
      simp only [IntervalSetMapping.join, List.filterMap_cons, h2,
        IntervalSetMapping.keys, List.map_cons, List.filter_cons] at *
      simpa [hmem] using ih
    · obtain ⟨s2, hs2⟩ := Option.ne_none_iff_exists'.mp h2
      have hmem : k1 ∈ IntervalSetMapping.keys m2 := by
        by_contra hmem
        rw [← IntervalSetMapping.get?_eq_none_iff m2 k1] at hmem
        simp [hmem] at hs2
      simp only [IntervalSetMapping.join, List.filterMap_cons, hs2,
        IntervalSetMapping.keys, List.map_cons, List.filter_cons] at *
      simpa [hmem] using ih

/-- Lookup in a mapping join, assuming the left operand's key invariant:
present on a key exactly when both operands are, and then holding the join
of the two stored IntervalSets. -/
theorem IntervalSetMapping.get?_join {K P Q R : Type} [DecidableEq K]
    (m1 : IntervalSetMapping K P) (m2 : IntervalSetMapping K Q)
    (pred : Interval P → Interval Q → Bool)
    (mergeOp : Interval P → Interval Q → Interval R) (w : Option ℚ)
    (hm1 : (IntervalSetMapping.keys m1).Nodup) (k : K) :
    IntervalSetMapping.get?
        (IntervalSetMapping.join m1 m2 pred mergeOp w) k =
      (IntervalSetMapping.get? m1 k).bind fun s1 =>
        (IntervalSetMapping.get? m2 k).map fun s2 =>
          IntervalSet.join s1 s2 pred mergeOp w := by
  induction m1 with
  | nil => rfl
  | cons kv rest ih =>
    obtain ⟨k1, s1⟩ := kv
    rw [IntervalSetMapping.keys, List.map_cons, List.nodup_cons] at hm1
    by_cases hk : k = k1
    · subst hk
      cases hs2 : IntervalSetMapping.get? m2 k with
      | none =>
        have hnotin :
            IntervalSetMapping.get?
              (IntervalSetMapping.join rest m2 pred mergeOp w) k = none := by
          rw [IntervalSetMapping.get?_eq_none_iff,
            IntervalSetMapping.keys_join]
          intro hmem
          exact hm1.1 (List.mem_of_mem_filter hmem)
        have hjoin : IntervalSetMapping.join ((k, s1) :: rest) m2
            pred mergeOp w = IntervalSetMapping.join rest m2 pred mergeOp w := by
          simp [IntervalSetMapping.join, List.filterMap_cons, hs2]
        rw [hjoin, hnotin]
        simp [IntervalSetMapping.get?, hs2]
      | some s2 =>
        simp [IntervalSetMapping.join, List.filterMap_cons, hs2,
          IntervalSetMapping.get?]
    · cases hs2 : IntervalSetMapping.get? m2 k1 with
      | none =>
        simp only [IntervalSetMapping.join, List.filterMap_cons, hs2]
        rw [IntervalSetMapping.join] at ih
        rw [ih hm1.2]
        simp [IntervalSetMapping.get?, hk]
      | some s2 =>
        simp only [IntervalSetMapping.join, List.filterMap_cons, hs2]
        rw [IntervalSetMapping.get?, if_neg hk]
        rw [IntervalSetMapping.join] at ih
        rw [ih hm1.2]
        simp [IntervalSetMapping.get?, hk]

/-- Claim C7: the key set of a mapping join is the intersection of the two
key sets; each shared key maps to the join of the two stored IntervalSets;
keys present in only one mapping are silently dropped (lookup misses, no
error), assuming the mapping invariant that keys are not duplicated. -/
theorem IntervalSetMapping.join_spec {K P Q R : Type} [DecidableEq K]
    (m1 : IntervalSetMapping K P) (m2 : IntervalSetMapping K Q)
    (pred : Interval P → Interval Q → Bool)
    (mergeOp : Interval P → Interval Q → Interval R) (w : Option ℚ)
    (hm1 : (IntervalSetMapping.keys m1).Nodup) :
    IntervalSetMapping.keys
        (IntervalSetMapping.join m1 m2 pred mergeOp w) =
      (IntervalSetMapping.keys m1).filter
        (fun k => decide (k ∈ IntervalSetMapping.keys m2)) ∧
    ∀ k,
      IntervalSetMapping.get?
          (IntervalSetMapping.join m1 m2 pred mergeOp w) k =
        (IntervalSetMapping.get? m1 k).bind fun s1 =>
          (IntervalSetMapping.get? m2 k).map fun s2 =>
            IntervalSet.join s1 s2 pred mergeOp w :=
  ⟨IntervalSetMapping.keys_join m1 m2 pred mergeOp w,
    IntervalSetMapping.get?_join m1 m2 pred mergeOp w hm1⟩

/-- Witness for C7: the spec's example shape, mapping keys {1, 2} joined
with mapping keys {2, 3} yields exactly key 2, bound to the join of the two
stored sets. -/
theorem IntervalSetMapping.join_spec_witness :
    ((IntervalSetMapping.keys [(1, sampleA), (2, sampleB)]).Nodup ∧
    IntervalSetMapping.keys
        (IntervalSetMapping.join [(1, sampleA), (2, sampleB)]
          [(2, sampleB), (3, sampleA)] samplePred sampleMerge (some 0)) =
      (IntervalSetMapping.keys
        [((1 : ℕ), sampleA), (2, sampleB)]).filter
        (fun k => decide (k ∈ IntervalSetMapping.keys
          [((2 : ℕ), sampleB), (3, sampleA)]))) ∧
    ∀ k,
      IntervalSetMapping.get?
          (IntervalSetMapping.join [(1, sampleA), (2, sampleB)]
            [(2, sampleB), (3, sampleA)] samplePred sampleMerge (some 0)) k =
        (IntervalSetMapping.get? [(1, sampleA), (2, sampleB)] k).bind
          fun s1 =>
            (IntervalSetMapping.get? [(2, sampleB), (3, sampleA)] k).map
              fun s2 => IntervalSet.join s1 s2 samplePred sampleMerge
                (some 0) := by
  have h := IntervalSetMapping.join_spec
    [((1 : ℕ), sampleA), (2, sampleB)] [(2, sampleB), (3, sampleA)]
    samplePred sampleMerge (some 0) (by decide)
  exact ⟨⟨by decide, h.1⟩, h.2⟩

/-- A row whose candidates contain a failing pair aborts with an
`EvaluationError` wrapping some underlying cause. -/
theorem joinRowE_error {P Q R ε : Type}
    (pred : Interval P → Interval Q → Except ε Bool)
    (mergeOp : Interval P → Interval Q → Except ε (Interval R))
    (a : Interval P) (bs : List (Interval Q))
    (h : ∃ b ∈ bs, failsOn pred mergeOp a b) :
    ∃ c, joinRowE pred mergeOp a bs = .error (.evaluationError c) := by
  induction bs with
  | nil => simp at h
  | cons b bs ih =>
    by_cases hb : failsOn pred mergeOp a b
    · rcases hb with ⟨e, he⟩ | ⟨ht, e, he⟩
      · exact ⟨e, by simp [joinRowE, he]⟩
      · exact ⟨e, by simp [joinRowE, ht, he]⟩
    · have htail : ∃ b' ∈ bs, failsOn pred mergeOp a b' := by
        obtain ⟨b', hb', hf⟩ := h
        rcases List.mem_cons.mp hb' with rfl | hm
        · exact absurd hf hb
        · exact ⟨b', hm, hf⟩
      obtain ⟨c, hc⟩ := ih htail
      cases hp : pred a b with
      | error e => exact ⟨e, by simp [joinRowE, hp]⟩
      | ok keep =>
        cases keep with
        | false => exact ⟨c, by simp [joinRowE, hp, hc]⟩
        | true =>
          cases hm : mergeOp a b with
          | error e => exact ⟨e, by simp [joinRowE, hp, hm]⟩
          | ok r => exact ⟨c, by simp [joinRowE, hp, hm, hc]⟩

/-- A fallible join with a failing candidate pair somewhere in the sweep
aborts with an `EvaluationError` wrapping some underlying cause. -/
theorem joinE_error {P Q R ε : Type} (A : IntervalSet P) (B : IntervalSet Q)
    (pred : Interval P → Interval Q → Except ε Bool)
    (mergeOp : Interval P → Interval Q → Except ε (Interval R)) (w : ℚ)
    (h : ∃ a ∈ A, ∃ b ∈ windowSlice w a.bounds.t1 B,
      failsOn pred mergeOp a b) :
    ∃ c, joinE A B pred mergeOp w = .error (.evaluationError c) := by
  induction A with
  | nil => simp at h
  | cons a rest ih =>
    by_cases ha : ∃ b ∈ windowSlice w a.bounds.t1 B, failsOn pred mergeOp a b
    · obtain ⟨c, hc⟩ := joinRowE_error pred mergeOp a _ ha
      exact ⟨c, by simp [joinE, hc]⟩
    · have htail : ∃ a' ∈ rest, ∃ b ∈ windowSlice w a'.bounds.t1 B,
          failsOn pred mergeOp a' b := by
        obtain ⟨a', ha', hrest⟩ := h
        rcases List.mem_cons.mp ha' with rfl | hm
        · exact absurd hrest ha
        · exact ⟨a', hm, hrest⟩
      obtain ⟨c, hc⟩ := ih htail
      cases hrow : joinRowE pred mergeOp a (windowSlice w a.bounds.t1 B) with
      | error e =>
        cases e with
        | evaluationError e0 => exact ⟨e0, by simp [joinE, hrow]⟩
      | ok rs => exact ⟨c, by simp [joinE, hrow, hc]⟩

/-- A row whose callbacks are total computes the pure row: the matches
filtered by the projected predicate, merged by the projected merge. -/
theorem joinRowE_ok_of_total {P Q R ε : Type}
    (pred : Interval P → Interval Q → Except ε Bool)
    (mergeOp : Interval P → Interval Q → Except ε (Interval R))
    (pred0 : Interval P → Interval Q → Bool)
    (merge0 : Interval P → Interval Q → Interval R)
    (hp : ∀ a b, pred a b = .ok (pred0 a b))
    (hm : ∀ a b, mergeOp a b = .ok (merge0 a b))
    (a : Interval P) (bs : List (Interval Q)) :
    joinRowE pred mergeOp a bs =
      .ok ((List.filter (pred0 a) bs).map (merge0 a)) := by
  induction bs with
  | nil => rfl
  | cons b bs ih =>
    cases hpb : pred0 a b with
    | false =>
      simp [joinRowE, hp a b, hpb, ih, List.filter_cons, hpb]
    | true =>
      simp [joinRowE, hp a b, hpb, hm a b, ih, List.filter_cons, hpb]

/-- A fallible join whose callbacks are total computes exactly the pure
sorted-sweep join of the projected callbacks: the error channel changes no
result on the success path. -/
theorem joinE_ok_of_total {P Q R ε : Type} (A : IntervalSet P)
    (B : IntervalSet Q) (pred : Interval P → Interval Q → Except ε Bool)
    (mergeOp : Interval P → Interval Q → Except ε (Interval R))
    (pred0 : Interval P → Interval Q → Bool)
    (merge0 : Interval P → Interval Q → Interval R)
    (hp : ∀ a b, pred a b = .ok (pred0 a b))
    (hm : ∀ a b, mergeOp a b = .ok (merge0 a b)) (w : ℚ) :
    joinE A B pred mergeOp w = .ok (joinSweep A B pred0 merge0 w) := by
  induction A with
  | nil => rfl
  | cons a rest ih =>
    simp [joinE, joinRowE_ok_of_total pred mergeOp pred0 merge0 hp hm, ih,
      joinSweep]

/-- Claim C8: a join in which the predicate or merge callback fails on some
candidate pair fails as a whole with an `EvaluationError` wrapping an
underlying cause; the join aborts entirely — no partial result is ever
returned — and the error is the join's synchronous return value. -/
theorem joinE_abort_spec {P Q R ε : Type} (A : IntervalSet P)
    (B : IntervalSet Q) (pred : Interval P → Interval Q → Except ε Bool)
    (mergeOp : Interval P → Interval Q → Except ε (Interval R)) (w : ℚ)
    (h : ∃ a ∈ A, ∃ b ∈ windowSlice w a.bounds.t1 B,
      failsOn pred mergeOp a b) :
    (∃ c, joinE A B pred mergeOp w =
      .error (EvalError.evaluationError c)) ∧
    ∀ out, joinE A B pred mergeOp w ≠ .ok out := by
  obtain ⟨c, hc⟩ := joinE_error A B pred mergeOp w h
  refine ⟨⟨c, hc⟩, fun out hout => ?_⟩
  rw [hc] at hout
  cases hout

/-- Witness for C8 at concrete inputs: a failing predicate aborts the whole
join with an `EvaluationError`. -/
theorem joinE_abort_spec_witness :
    (∃ a ∈ [sampleInterval 0 1],
      ∃ b ∈ windowSlice 0 a.bounds.t1 [sampleInterval 0 10],
        failsOn samplePredE sampleMergeE a b) ∧
    ((∃ c, joinE [sampleInterval 0 1] [sampleInterval 0 10] samplePredE
        sampleMergeE 0 = .error (EvalError.evaluationError c)) ∧
      ∀ out, joinE [sampleInterval 0 1] [sampleInterval 0 10] samplePredE
        sampleMergeE 0 ≠ .ok out) := by
  have h : ∃ a ∈ [sampleInterval 0 1],
      ∃ b ∈ windowSlice 0 a.bounds.t1 [sampleInterval 0 10],
        failsOn samplePredE sampleMergeE a b := by
    refine ⟨sampleInterval 0 1, by simp, sampleInterval 0 10,
      by norm_num [windowSlice, sampleInterval, List.dropWhile_cons,
        List.takeWhile_cons],
      Or.inl ⟨7, rfl⟩⟩
  exact ⟨h, joinE_abort_spec [sampleInterval 0 1] [sampleInterval 0 10]
    samplePredE sampleMergeE 0 h⟩

end Rekall
